import Mathlib

/-!
Verification development for the Car-Resource-Crawler crawl engine.

The Python source is shallowly embedded: pure string manipulation
(`_unescape_json_url`, `_extract_urls_from_html`, `_infer_extension_from_content_type`,
`_sanitize_filename`, `_generate_filename`), the persistence gateway
(`ImageResourceService`), the retrying fetcher (`fetch_html` /
`_apply_retry_strategy`) and the per-candidate crawl pipeline (`crawl`)
become executable Lean functions.  Network and database effects are
modelled as explicit oracles/state; Python `str` is modelled through
`List Char` (ASCII-faithful; the sources and fixtures are ASCII).
-/

namespace CarCrawler

/-! ### Basic character/string utilities (models of Python str primitives) -/

/-- Python `s.startswith(pat)`: `startsWithCh pat s` is true when `pat` is a
prefix of `s` (both as character lists). -/
def startsWithCh : List Char → List Char → Bool
  | [], _ => true
  | _ :: _, [] => false
  | p :: ps, c :: cs => p = c && startsWithCh ps cs

/-- Python `pat in s` (substring containment) on character lists. -/
def infixOfCh (pat : List Char) : List Char → Bool
  | [] => startsWithCh pat []
  | c :: cs => startsWithCh pat (c :: cs) || infixOfCh pat cs

/-- Python `s.startswith(pat)` on `String`. -/
def strStartsWith (s pat : String) : Bool := startsWithCh pat.data s.data

/-- Python `pat in s` on `String`. -/
def strContains (s pat : String) : Bool := infixOfCh pat.data s.data

/-- Python `str.lower()` (ASCII case folding; the compared literals are ASCII). -/
def lowerStr (s : String) : String := String.mk (s.data.map Char.toLower)

/-- Python whitespace class `\s` / `str.strip()` default set (ASCII part). -/
def isPySpace (c : Char) : Bool :=
  c = ' ' || c = '\t' || c = '\n' || c = '\r' || c = '\x0b' || c = '\x0c'

/-- Python `str.strip()`: drop leading and trailing whitespace. -/
def pyStrip (s : String) : String :=
  String.mk (((s.data.dropWhile isPySpace).reverse.dropWhile isPySpace).reverse)

/-- Python `str.replace(pat, repl)`: left-to-right, non-overlapping literal
replacement.  Implemented with fuel (one unit per consumed character) so that
the definition is structural and kernel-reducible; `fuel = s.length` always
suffices because each step consumes at least one character of `s`. -/
def replaceF (pat repl : List Char) : Nat → List Char → List Char
  | _, [] => []
  | 0, s => s
  | fuel + 1, c :: cs =>
    if !pat.isEmpty && startsWithCh pat (c :: cs) then
      repl ++ replaceF pat repl fuel (List.drop pat.length (c :: cs))
    else c :: replaceF pat repl fuel cs

/-- Python `s.replace(pat, repl)` on character lists. -/
def replaceL (pat repl s : List Char) : List Char := replaceF pat repl s.length s

/-- Python `str.rstrip("=")`: drop trailing `=` characters. -/
def rstripEq (s : String) : String :=
  String.mk ((s.data.reverse.dropWhile (fun c => c = '=')).reverse)

/-! ### JSON-escape unescaping

`WebScapingWorker._unescape_json_url` (web_scaping_worker.py:676-685) and
`BingCrawler._unescape_bing_json_url` (bing_crawler.py:97-104). -/

/-- The five sequential replacements of `WebScapingWorker._unescape_json_url`:
`\/`→`/`, `&`→`&`, `&amp;`→`&`, `'`→apostrophe, `"`→quote. -/
def unescapeJsonUrlL (s : List Char) : List Char :=
  replaceL ("\\u0022".data) ['"']
    (replaceL ("\\u0027".data) ['\'']
      (replaceL ("&amp;".data) ['&']
        (replaceL ("\\u0026".data) ['&']
          (replaceL ("\\/".data) ['/'] s))))

/-- `WebScapingWorker._unescape_json_url` on `String`. -/
def unescapeJsonUrl (s : String) : String := String.mk (unescapeJsonUrlL s.data)

/-- The three sequential replacements of `BingCrawler._unescape_bing_json_url`:
`\/`→`/`, `&`→`&`, `&amp;`→`&`. -/
def unescapeBingJsonUrlL (s : List Char) : List Char :=
  replaceL ("&amp;".data) ['&']
    (replaceL ("\\u0026".data) ['&']
      (replaceL ("\\/".data) ['/'] s))

/-- `BingCrawler._unescape_bing_json_url` on `String`. -/
def unescapeBingJsonUrl (s : String) : String := String.mk (unescapeBingJsonUrlL s.data)

/-! ### URL query parsing (models of `urllib.parse.urlparse` / `parse_qs`) -/

/-- Hexadecimal digit value, as accepted by `urllib.parse.unquote`. -/
def hexVal (c : Char) : Option Nat :=
  if '0' ≤ c && c ≤ '9' then some (c.toNat - 48)
  else if 'a' ≤ c && c ≤ 'f' then some (c.toNat - 87)
  else if 'A' ≤ c && c ≤ 'F' then some (c.toNat - 55)
  else none

/-- `urllib.parse.unquote_plus` as used by `parse_qs`: `+` becomes a space and
`%hh` becomes the character with that code; malformed escapes are left as-is.
(Bytes ≥ 0x80 are mapped directly to the code point; all inputs in the claims
are ASCII, so UTF-8 multi-byte decoding never arises.) -/
def percentDecodePlus : List Char → List Char
  | [] => []
  | '+' :: rest => ' ' :: percentDecodePlus rest
  | '%' :: h1 :: h2 :: rest2 =>
    match hexVal h1, hexVal h2 with
    | some a, some b => Char.ofNat (16 * a + b) :: percentDecodePlus rest2
    | _, _ => '%' :: percentDecodePlus (h1 :: h2 :: rest2)
  | c :: rest => c :: percentDecodePlus rest

/-- Python `str.split(sep)` for a single-character separator, keeping empty
fields (as `urllib.parse.parse_qsl` does with `&`). -/
def splitOnAmp : List Char → List (List Char)
  | [] => [[]]
  | c :: rest =>
    match splitOnAmp rest with
    | [] => [[]]
    | g :: gs => if c = '&' then [] :: g :: gs else (c :: g) :: gs

/-- Split a `name=value` field at the first `=`; `none` when there is no `=`
(such fields are skipped by `parse_qsl` in its default configuration). -/
def splitFirstEq : List Char → Option (List Char × List Char)
  | [] => none
  | c :: rest =>
    if c = '=' then some ([], rest)
    else
      match splitFirstEq rest with
      | none => none
      | some (n, v) => some (c :: n, v)

/-- `urllib.parse.parse_qsl(query)` with default options: split on `&`, split
each field at the first `=`, skip fields with no `=` or an empty value
(`keep_blank_values=False`), percent-decode names and values. -/
def parseQsPairs (query : List Char) : List (List Char × List Char) :=
  (splitOnAmp query).filterMap (fun field =>
    match splitFirstEq field with
    | none => none
    | some (n, v) =>
      if v.isEmpty then none
      else some (percentDecodePlus n, percentDecodePlus v))

/-- The part of a character list after the first `?` (empty when no `?`). -/
def afterFirstQ : List Char → List Char
  | [] => []
  | c :: rest => if c = '?' then rest else afterFirstQ rest

/-- `urlparse(url).query`: the part after the first `?`, with any `#fragment`
removed first. -/
def queryOf (url : String) : String :=
  String.mk (afterFirstQ (url.data.takeWhile (fun c => c ≠ '#')))

/-- `parse_qs(query).get(key)` followed by taking `vals[0]`: the first value
bound to `key` in the query string, if any. -/
def qsGetFirst (query key : String) : Option String :=
  ((parseQsPairs query.data).find? (fun p => p.1 = key.data)).map
    (fun p => String.mk p.2)

/-! ### URL normalization and deduplication

`BingCrawler._extract_urls_from_html` (bing_crawler.py:106-165) normalization
part and `WebScapingWorker._extract_urls_from_html` (web_scaping_worker.py:687-758).
Python collects intermediate URLs in `set` objects whose iteration order is
unspecified; the model uses first-insertion order (`dedupFirst`) throughout
and records this choice here once. -/

/-- Order-preserving deduplication with an explicit `seen` accumulator, the
final `for u in candidates: if u not in seen` loop of both extractors. -/
def dedupFirstAux (seen : List String) : List String → List String
  | [] => []
  | u :: us =>
    if seen.contains u then dedupFirstAux seen us
    else u :: dedupFirstAux (u :: seen) us

/-- Deduplicate a list of URLs keeping the first occurrence of each. -/
def dedupFirst (l : List String) : List String := dedupFirstAux [] l

def httpStr : String := "http"

/-- The wrapper-key tuple `("mediaurl", "imgurl", "murl")` of
`BingCrawler._extract_urls_from_html`. -/
def bingWrapperKeys : List String := ["mediaurl", "imgurl", "murl"]

/-- The default `extraction_patterns` of `WebScapingWorker.__init__`. -/
def webExtractionSubs : List String := ["mediaurl=", "imgurl=", "murl=", "imageurl="]

/-- The noise-substring denylist of `BingCrawler._extract_urls_from_html`. -/
def bingNoiseSubs : List String :=
  ["bing.com/images/search", "/th?id=", "/rp/", "/fd/ls/", "/hp/",
   "bing.com/ck/a", "bing.com/aclick", "/favicon", "/policies/", "/logo"]

/-- The noise-substring denylist of `WebScapingWorker._extract_urls_from_html`. -/
def webNoiseSubs : List String :=
  ["/search", "/th?id=", "/rp/", "/fd/ls/", "/hp/", "/ck/a", "/aclick",
   "/favicon", "/policies/", "/logo", "javascript:", "mailto:", "tel:"]

/-- `any(x in u for x in ...)` over the Bing noise denylist. -/
def bingNoise (u : String) : Bool := bingNoiseSubs.any (fun x => strContains u x)

/-- `any(x in u for x in ...)` over the web-worker noise denylist. -/
def webNoise (u : String) : Bool := webNoiseSubs.any (fun x => strContains u x)

/-- The `for key in keys ... break / else` loop shared by both normalizers:
the first key whose first query value starts with `http` yields that value;
keys that are absent, or whose first value does not start with `http`, are
skipped. -/
def firstWrapperValue (keys : List String) (query : String) : Option String :=
  match keys with
  | [] => none
  | k :: ks =>
    match qsGetFirst query k with
    | some v => if strStartsWith v httpStr then some v else firstWrapperValue ks query
    | none => firstWrapperValue ks query

def mediaurlEqSub : String := "mediaurl="

def imgurlEqSub : String := "imgurl="

/-- Per-URL normalization of `BingCrawler._extract_urls_from_html`
(bing_crawler.py:119-136): wrapper resolution is attempted only when the URL
contains the substring `mediaurl=` or `imgurl=`; the keys tried are
`mediaurl`, `imgurl`, `murl`. -/
def bingNormalizeUrl (url : String) : String :=
  if strContains url mediaurlEqSub || strContains url imgurlEqSub then
    match firstWrapperValue bingWrapperKeys (queryOf url) with
    | some v => unescapeBingJsonUrl v
    | none => url
  else url

/-- Per-URL normalization of `WebScapingWorker._extract_urls_from_html`
(web_scaping_worker.py:708-726): the guard checks all four
`extraction_patterns` substrings and the keys are the patterns with trailing
`=` stripped. -/
def webNormalizeUrl (url : String) : String :=
  if webExtractionSubs.any (fun pat => strContains url pat) then
    match firstWrapperValue (webExtractionSubs.map rstripEq) (queryOf url) with
    | some v => unescapeJsonUrl v
    | none => url
  else url

/-- The normalize + noise-filter + dedup tail of
`BingCrawler._extract_urls_from_html` (bing_crawler.py:119-165), acting on an
already-extracted URL collection. -/
def bingNormalize (urls : List String) : List String :=
  dedupFirst ((dedupFirst (urls.map bingNormalizeUrl)).filter (fun u => !(bingNoise u)))

/-! ### URL extraction from HTML

Model of the `re.findall` calls in `WebScapingWorker._extract_urls_from_html`
(web_scaping_worker.py:687-706) with the default `url_patterns` of
`WebScapingWorker.__init__` (web_scaping_worker.py:52-59).  The scanners use
fuel (one unit per consumed character, `fuel = s.length` always suffices) so
that they are structurally recursive and kernel-reducible. -/

/-- The character class `[^\s'\"<>]` of the generic URL pattern. -/
def genericAllowed (c : Char) : Bool :=
  !(isPySpace c || c = '\'' || c = '"' || c = '<' || c = '>')

def httpsLit : List Char := "https://".data

/-- `re.findall(r'https://[^\s\'\"<>]+', s)`: scan left to right; at a
position starting with `https://` take the maximal run of allowed characters
(which must properly extend the prefix), emit it, and resume after the match;
otherwise advance one character. -/
def genericScanF : Nat → List Char → List (List Char)
  | _, [] => []
  | 0, _ :: _ => []
  | fuel + 1, c :: cs =>
    if startsWithCh httpsLit (c :: cs) then
      let run := List.takeWhile genericAllowed (c :: cs)
      if 9 ≤ run.length then run :: genericScanF fuel (List.drop run.length (c :: cs))
      else genericScanF fuel cs
    else genericScanF fuel cs

/-- `re.findall` for a pattern of the shape `PFX(https://[^"]+)"` where `PFX`
is a literal such as `"murl":"`: at an occurrence of `PFX`, the capture is the
run up to the next `"`, provided it starts with `https://`, properly extends
it, and is terminated by a closing `"`; scanning resumes after the closing
quote on success and one character further on failure. -/
def captureAfterF (pfx : List Char) : Nat → List Char → List (List Char)
  | _, [] => []
  | 0, _ :: _ => []
  | fuel + 1, c :: cs =>
    if pfx.isEmpty then []
    else if startsWithCh pfx (c :: cs) then
      let rest := List.drop pfx.length (c :: cs)
      let cap := List.takeWhile (fun ch => ch ≠ '"') rest
      if startsWithCh httpsLit rest && decide (9 ≤ cap.length) && decide (cap.length < rest.length) then
        cap :: captureAfterF pfx fuel (List.drop (cap.length + 1) rest)
      else captureAfterF pfx fuel cs
    else captureAfterF pfx fuel cs

def imgTagLit : List Char := "<img".data

def srcEqQuoteLit : List Char := ("src=" ++ "\"").data

/-- Backtracking helper for the `<img[^>]+src="(https://[^"]+)"` pattern: try
`src="` at offsets `q+1, q, ..., 1` after the `<img` literal (greedy `[^>]+`
backtracks from the longest gap), requiring at least one `[^>]` character
before it; on success return the capture and the total length consumed after
`<img`. -/
def imgTryOffsets (t : List Char) : Nat → Option (List Char × Nat)
  | 0 => none
  | q + 1 =>
    let rest := List.drop (q + 1 + 5) t
    let cap := List.takeWhile (fun ch => ch ≠ '"') rest
    if startsWithCh srcEqQuoteLit (List.drop (q + 1) t) &&
        startsWithCh httpsLit rest && decide (9 ≤ cap.length) &&
        decide (cap.length < rest.length) then
      some (cap, q + 1 + 5 + cap.length + 1)
    else imgTryOffsets t q

/-- `re.findall(r'<img[^>]+src="(https://[^"]+)"', s)`. -/
def imgScanF : Nat → List Char → List (List Char)
  | _, [] => []
  | 0, _ :: _ => []
  | fuel + 1, c :: cs =>
    if startsWithCh imgTagLit (c :: cs) then
      let t := List.drop 4 (c :: cs)
      match imgTryOffsets t (List.takeWhile (fun ch => ch ≠ '>') t).length with
      | some (cap, klen) => cap :: imgScanF fuel (List.drop (4 + klen) (c :: cs))
      | none => imgScanF fuel cs
    else imgScanF fuel cs

def murlCapPfx : List Char := ("\"murl\":" ++ "\"").data

def imageUrlCapPfx : List Char := ("\"imageUrl\":" ++ "\"").data

def srcCapPfx : List Char := ("\"src\":" ++ "\"").data

def urlCapPfx : List Char := ("\"url\":" ++ "\"").data

/-- All matches produced by the six default `url_patterns`, in pattern order
(the Python code inserts them into a set, so only membership matters there;
the model keeps first-insertion order, see the note above `dedupFirstAux`). -/
def webUrlPatternMatches (html : List Char) : List (List Char) :=
  captureAfterF murlCapPfx html.length html ++
  captureAfterF imageUrlCapPfx html.length html ++
  captureAfterF srcCapPfx html.length html ++
  captureAfterF urlCapPfx html.length html ++
  imgScanF html.length html ++
  genericScanF html.length html

/-- `WebScapingWorker._extract_urls_from_html` (web_scaping_worker.py:687-758):
pattern matches (kept when they start with `http`, unescaped), wrapper
normalization, noise filter, order-preserving dedup. -/
def webExtract (html : String) : List String :=
  let raw := (webUrlPatternMatches html.data).filter (fun m => startsWithCh httpStr.data m)
  let urlsSet := dedupFirst (raw.map (fun m => String.mk (unescapeJsonUrlL m)))
  let normalized := dedupFirst (urlsSet.map webNormalizeUrl)
  dedupFirst (normalized.filter (fun u => !(webNoise u)))

/-- Newline-join of URL character lists: the canonical "text containing
exactly its own previous output" used to re-run extraction on an output. -/
def joinNl : List (List Char) → List Char
  | [] => []
  | u :: us => u ++ '\n' :: joinNl us

/-- Render an extracted URL list back into a text, one URL per line. -/
def renderUrls (urls : List String) : String := String.mk (joinNl (urls.map String.data))

/-- Conditions under which a URL is re-extracted verbatim by a second
extraction pass: it starts with `https://` and properly extends it, all its
characters are in the generic pattern's class, and it is a fixed point of
unescaping, wrapper normalization, and the noise filter. -/
def stableUrl (u : String) : Bool :=
  startsWithCh httpsLit u.data && decide (9 ≤ u.data.length) &&
    u.data.all genericAllowed && (unescapeJsonUrl u == u) &&
    (webNormalizeUrl u == u) && !(webNoise u)

/-! ### Extension inference and filename generation

`BingCrawler._infer_extension_from_content_type` (bing_crawler.py:181-198),
`WebScapingWorker._infer_extension_from_content_type`
(web_scaping_worker.py:775-794), `_sanitize_filename` and
`_generate_filename` (identical in both classes). -/

/-- The content-type → extension dict of
`BingCrawler._infer_extension_from_content_type`, in insertion order.  It has
no `image/avif` entry. -/
def bingExtensionMapping : List (String × String) :=
  [("image/jpeg", "jpg"), ("image/jpg", "jpg"), ("image/png", "png"),
   ("image/webp", "webp"), ("image/gif", "gif"), ("image/bmp", "bmp"),
   ("image/tiff", "tiff"), ("image/svg+xml", "svg")]

/-- The content-type → extension dict of
`WebScapingWorker._infer_extension_from_content_type`, in insertion order; the
same as Bing's plus a final `image/avif` entry. -/
def webExtensionMapping : List (String × String) :=
  [("image/jpeg", "jpg"), ("image/jpg", "jpg"), ("image/png", "png"),
   ("image/webp", "webp"), ("image/gif", "gif"), ("image/bmp", "bmp"),
   ("image/tiff", "tiff"), ("image/svg+xml", "svg"), ("image/avif", "avif")]

/-- `_infer_extension_from_content_type`: `None` for a missing content type,
otherwise the extension of the first mapping key that the lowercased content
type starts with, `None` when no key matches.  (The Python `if not
content_type` guard also treats the empty string as missing; an empty string
matches no key, so the result agrees.) -/
def inferExtensionFromContentType (mapping : List (String × String))
    (ct : Option String) : Option String :=
  match ct with
  | none => none
  | some c => (mapping.find? (fun p => strStartsWith (lowerStr c) p.1)).map (fun p => p.2)

/-- The character filter of `_sanitize_filename`: keep alphanumerics and
space, `-`, `_`, `.`.  (Python `str.isalnum()` is Unicode-aware; the model
uses ASCII alphanumerics, and every string in the claims is ASCII.) -/
def fnKeepChar (c : Char) : Bool :=
  c.isAlphanum || c = ' ' || c = '-' || c = '_' || c = '.'

/-- `_sanitize_filename` (bing_crawler.py:200-203, web_scaping_worker.py:796-800):
drop disallowed characters, then replace spaces with underscores. -/
def sanitizeFilename (name : String) : String :=
  String.mk ((name.data.filter fnKeepChar).map (fun c => if c = ' ' then '_' else c))

/-- Python `s.replace(" ", "_")` (single-character replacement). -/
def underscoreSpaces (s : String) : String :=
  String.mk (s.data.map (fun c => if c = ' ' then '_' else c))

/-- One hexadecimal digit character (input < 16). -/
def hexChar (n : Nat) : Char :=
  if n < 10 then Char.ofNat (48 + n) else Char.ofNat (87 + n)

/-- Model of `hashlib.sha1(str(ts_ns).encode()).hexdigest()[:12]`: an
arbitrary 12-character lowercase-hex digest of the timestamp.  The claims
depend only on the digest's length and character class, not on the SHA-1
permutation itself, so the hash is modelled as a hex rendering of the input. -/
def sha1Hex12 (tsNs : Nat) : String :=
  String.mk ((List.range 12).map (fun i => hexChar (tsNs / 16 ^ i % 16)))

def jpgStr : String := "jpg"

def querySlugDefault : String := "query"

/-- `_generate_filename(url, query, content_type)` (bing_crawler.py:205-210,
web_scaping_worker.py:802-808): `{query_slug}_{hash12}.{ext}` where the slug
falls back to `"query"` when sanitization leaves nothing, and the extension
falls back to `"jpg"` when none can be inferred.  (`url` is accepted and
unused, exactly as in the source.) -/
def generateFilename (mapping : List (String × String)) (_url query : String)
    (ct : Option String) (tsNs : Nat) : String :=
  let ext := (inferExtensionFromContentType mapping ct).getD jpgStr
  let slug0 := sanitizeFilename (underscoreSpaces (pyStrip query))
  let slug := if slug0 = "" then querySlugDefault else slug0
  slug ++ "_" ++ sha1Hex12 tsNs ++ "." ++ ext

/-! ### The duplicate store gateway (`ImageResourceService`, models of
image_resource_service.py and the `ImageResourceModel` of
image_resource.py).  The database is a list of records; the `unique=True`
constraint on `url` (image_resource.py:14) makes `commit` raise
`IntegrityError` when a second record with the same url is added, which
`create_image_resource` rolls back and re-raises
(image_resource_service.py:48-58). -/

structure ImageCreateData where
  url : String
  filename : Option String
  filePath : Option String
  format : Option String
  source : Option String
  searchQuery : Option String
  tags : Option (List String)
deriving DecidableEq, Repr

def statusPending : String := "pending"

def statusDownloading : String := "downloading"

def statusCompleted : String := "completed"

def statusFailed : String := "failed"

structure ImageRecord where
  id : String
  url : String
  filename : Option String
  filePath : Option String
  format : Option String
  source : Option String
  searchQuery : Option String
  tags : Option (List String)
  isDownloaded : Bool
  downloadStatus : String
  errorMessage : Option String
deriving DecidableEq, Repr

def integrityErrMsg : String := "IntegrityError: UNIQUE constraint failed: image_resources.url"

/-- `ImageResourceService.create_image_resource`
(image_resource_service.py:23-58): add a fresh record in `pending` state; a
duplicate canonical URL violates the unique constraint at commit time, the
session is rolled back (leaving the store unchanged) and the error re-raised. -/
def createImageResource (db : List ImageRecord) (newId : String)
    (d : ImageCreateData) : Except String (List ImageRecord × ImageRecord) :=
  if db.any (fun r => r.url = d.url) then Except.error integrityErrMsg
  else
    let newRec : ImageRecord :=
      { id := newId
        url := d.url
        filename := d.filename
        filePath := d.filePath
        format := d.format
        source := d.source
        searchQuery := d.searchQuery
        tags := d.tags
        isDownloaded := false
        downloadStatus := statusPending
        errorMessage := none }
    Except.ok (db ++ [newRec], newRec)

/-- `ImageResourceService.get_image_resource_by_url`
(image_resource_service.py:75-88): `scalar_one_or_none` over the unique url
column. -/
def getImageResourceByUrl (db : List ImageRecord) (url : String) : Option ImageRecord :=
  db.find? (fun r => r.url = url)

/-- The `values(**update_data)` payload of
`ImageResourceService.update_download_status`
(image_resource_service.py:254-278): the requested status is written
unconditionally; `completed` additionally sets `is_downloaded`, `failed`
additionally records the error message. -/
def applyStatusUpdate (r : ImageRecord) (status : String)
    (errorMessage : Option String) : ImageRecord :=
  { r with
    downloadStatus := status
    isDownloaded := if status = statusCompleted then true else r.isDownloaded
    errorMessage := if status = statusFailed then errorMessage else r.errorMessage }

/-- `ImageResourceService.update_download_status`: an UPDATE ... WHERE id =
image_id, returning the updated record when the row count is positive. -/
def updateDownloadStatus (db : List ImageRecord) (imageId status : String)
    (errorMessage : Option String) : List ImageRecord × Option ImageRecord :=
  let db2 := db.map (fun r => if r.id = imageId then applyStatusUpdate r status errorMessage else r)
  (db2, if db.any (fun r => r.id = imageId) then db2.find? (fun r => r.id = imageId) else none)

/-- `_check_image_exists` (bing_crawler.py:212-219,
web_scaping_worker.py:810-818): `True` iff the lookup succeeds and finds a
record; any exception from the lookup is caught and yields `False`. -/
def checkImageExists (raises : Bool) (db : List ImageRecord) (url : String) : Bool :=
  if raises then false else (getImageResourceByUrl db url).isSome

/-! ### The fetcher (`WebScapingWorker.fetch_html`,
web_scaping_worker.py:148-210, and `_apply_retry_strategy`,
web_scaping_worker.py:652-662).

The network is an oracle mapping the attempt index to an HTTP outcome.  The
403, 429 and 5xx branches differ in the source only by logging and by
user-agent/session rotation (which alter headers, not control flow), so their
identical retry logic is written out branch by branch below.  Randomness is a
supplied stream: `rand a` is the random draw available to the strategy at
attempt `a`.  The Vecteezy-specific dispatch at the top of `fetch_html` is
outside the generic engine and not modelled. -/

inductive HttpOutcome where
  | response (code : Nat) (body : String)
  | exc
deriving DecidableEq, Repr

def strategyExponential : String := "exponential"

def strategyLinear : String := "linear"

def strategyRandom : String := "random"

/-- `_apply_retry_strategy(attempt, base_delay)`: `exponential` gives
`base * 2^attempt`, `linear` gives `base * (attempt + 1)`,
`random` gives `uniform(base, base * 3)` (modelled as `base + rand * (base*3 -
base)` with `rand ∈ [0,1]`); when `retry_strategy` was never set
(`strategy = none`) or holds any other string, the fallback is
`base * (attempt + 1)`.  No jitter term is added by any branch. -/
def applyRetryStrategy (strategy : Option String) (attempt : Nat)
    (baseDelay : ℚ) (rand : ℚ) : ℚ :=
  match strategy with
  | some s =>
    if s = strategyExponential then baseDelay * 2 ^ attempt
    else if s = strategyLinear then baseDelay * ((attempt : ℚ) + 1)
    else if s = strategyRandom then baseDelay + rand * (baseDelay * 3 - baseDelay)
    else baseDelay * ((attempt : ℚ) + 1)
  | none => baseDelay * ((attempt : ℚ) + 1)

structure FetchTrace where
  result : Option String
  requests : Nat
  waits : List ℚ
deriving DecidableEq, Repr

/-- The `for attempt in range(max_retries)` loop of `fetch_html`, with
`fuel = maxRetries - attempt` remaining iterations.  `requests` counts issued
HTTP requests and `waits` the sleeps between attempts, in order. -/
def fetchLoop (respond : Nat → HttpOutcome) (maxRetries : Nat) (retryDelay : ℚ)
    (strategy : Option String) (rand : Nat → ℚ) : Nat → Nat → FetchTrace
  | _, 0 => ⟨none, 0, []⟩
  | attempt, fuel + 1 =>
    match respond attempt with
    | .response code body =>
      if code = 200 then ⟨some body, 1, []⟩
      else if code = 403 then
        if attempt + 1 < maxRetries then
          let w := applyRetryStrategy strategy attempt retryDelay (rand attempt)
          let t := fetchLoop respond maxRetries retryDelay strategy rand (attempt + 1) fuel
          ⟨t.result, t.requests + 1, w :: t.waits⟩
        else ⟨none, 1, []⟩
      else if code = 429 then
        if attempt + 1 < maxRetries then
          let w := applyRetryStrategy strategy attempt retryDelay (rand attempt)
          let t := fetchLoop respond maxRetries retryDelay strategy rand (attempt + 1) fuel
          ⟨t.result, t.requests + 1, w :: t.waits⟩
        else ⟨none, 1, []⟩
      else if code = 500 || code = 502 || code = 503 || code = 504 then
        if attempt + 1 < maxRetries then
          let w := applyRetryStrategy strategy attempt retryDelay (rand attempt)
          let t := fetchLoop respond maxRetries retryDelay strategy rand (attempt + 1) fuel
          ⟨t.result, t.requests + 1, w :: t.waits⟩
        else ⟨none, 1, []⟩
      else ⟨none, 1, []⟩
    | .exc =>
      if attempt + 1 < maxRetries then
        let t := fetchLoop respond maxRetries retryDelay strategy rand (attempt + 1) fuel
        ⟨t.result, t.requests + 1, (retryDelay * ((attempt : ℚ) + 1)) :: t.waits⟩
      else ⟨none, 1, []⟩

/-- `WebScapingWorker.fetch_html` for a non-Vecteezy URL: run the retry loop
from attempt 0.  A `none` result models the `return None` paths (the function
reports failure by value, it does not propagate an exception). -/
def fetchHtml (respond : Nat → HttpOutcome) (maxRetries : Nat) (retryDelay : ℚ)
    (strategy : Option String) (rand : Nat → ℚ) : FetchTrace :=
  fetchLoop respond maxRetries retryDelay strategy rand 0 maxRetries

/-! ### The per-candidate crawl pipeline (`WebScapingWorker.crawl`,
web_scaping_worker.py:871-934; `BingCrawler.crawl` is structurally identical,
bing_crawler.py:262-307).

Network and identifier generation are oracles: `contentType u` is the result
of `_head_content_type(u)`, `downloadOk u` the success of
`_download_image(u)`, `lookupRaises u` whether the store lookup for `u`
raises, `idGen k` the id given to the `k`-th created record and `tsGen k` its
timestamp. -/

def imageSlashStr : String := "image/"

/-- The `content_type.lower().startswith("image/")` verification test. -/
def isImageContentType (ct : String) : Bool := strStartsWith (lowerStr ct) imageSlashStr

structure CrawlEnv where
  contentType : String → Option String
  downloadOk : String → Bool
  lookupRaises : String → Bool
  idGen : Nat → String
  tsGen : Nat → Nat

structure CrawlState where
  db : List ImageRecord
  saved : Nat
  downloaded : Nat
  downloadAttempts : Nat
  createCalls : Nat
  errors : Nat
deriving Repr

def downloadFailedMsg : String := "Download failed"

/-- One iteration of the `for url_item in urls[:max_links]` loop of `crawl`:
skip if the existence check answers true; probe the content type and skip
non-images; generate a filename, create the pending record (counting the
attempt in `createCalls`; a raised create is caught by `_save_image_record`
which returns `None`, counted in `errors`), then attempt the download and mark
the record completed or failed. -/
def crawlProcessOne (env : CrawlEnv) (query sourceName resourceDir : String)
    (st : CrawlState) (u : String) : CrawlState :=
  if checkImageExists (env.lookupRaises u) st.db u then st
  else
    match env.contentType u with
    | none => st
    | some ct =>
      if !(isImageContentType ct) then st
      else
        let filename := generateFilename webExtensionMapping u query (some ct) (env.tsGen st.createCalls)
        let d : ImageCreateData :=
          { url := u
            filename := some filename
            filePath := some (resourceDir ++ "/" ++ filename)
            format := inferExtensionFromContentType webExtensionMapping (some ct)
            source := some sourceName
            searchQuery := some query
            tags := if query = "" then none else some [query] }
        match createImageResource st.db (env.idGen st.createCalls) d with
        | .error _ =>
          { st with
            createCalls := st.createCalls + 1
            errors := st.errors + 1 }
        | .ok (db2, newRec) =>
          let st2 : CrawlState :=
            { st with
              db := db2
              createCalls := st.createCalls + 1
              saved := st.saved + 1
              downloadAttempts := st.downloadAttempts + 1 }
          if env.downloadOk u then
            { st2 with
              db := (updateDownloadStatus db2 newRec.id statusCompleted none).1
              downloaded := st2.downloaded + 1 }
          else
            { st2 with db := (updateDownloadStatus db2 newRec.id statusFailed (some downloadFailedMsg)).1 }

/-- The whole per-candidate loop of `crawl`: the candidate list is capped at
`max_links` and processed in order. -/
def crawlCandidates (env : CrawlEnv) (query sourceName resourceDir : String)
    (maxLinks : Nat) (urls : List String) (st : CrawlState) : CrawlState :=
  (urls.take maxLinks).foldl (crawlProcessOne env query sourceName resourceDir) st

/-- A crawl-run state with fresh statistics over an initial store. -/
def initialCrawlState (db : List ImageRecord) : CrawlState :=
  { db := db
    saved := 0
    downloaded := 0
    downloadAttempts := 0
    createCalls := 0
    errors := 0 }

/-! ### Concrete fixtures used by counterexamples and witnesses -/

def fixtureUrlA : String := "https://img.example/cars/alpha.jpg"

def fixtureCreateA : ImageCreateData :=
  { url := fixtureUrlA
    filename := none
    filePath := none
    format := none
    source := none
    searchQuery := none
    tags := none }

def fixtureIdOne : String := "id-0001"

def fixtureIdTwo : String := "id-0002"

/-- The record produced by the first `create_image_resource(fixtureCreateA)`. -/
def fixtureRecA : ImageRecord :=
  { id := fixtureIdOne
    url := fixtureUrlA
    filename := none
    filePath := none
    format := none
    source := none
    searchQuery := none
    tags := none
    isDownloaded := false
    downloadStatus := statusPending
    errorMessage := none }

def fixtureRecId : String := "rec-42"

/-- A record whose download already completed. -/
def fixtureRecCompleted : ImageRecord :=
  { id := fixtureRecId
    url := "https://img.example/cars/beta.jpg"
    filename := none
    filePath := none
    format := none
    source := none
    searchQuery := none
    tags := none
    isDownloaded := true
    downloadStatus := statusCompleted
    errorMessage := none }

/-- `fixtureRecCompleted` after `update_download_status(..., "pending")`. -/
def fixtureRecDowngraded : ImageRecord :=
  { fixtureRecCompleted with downloadStatus := statusPending }

/-- A redirector URL whose only wrapper parameter is `murl`. -/
def fixtureMurlWrapped : String := "https://r.example/view?murl=https%3A%2F%2Fx.test%2Fa.jpg"

/-- The percent-decoded target carried by `fixtureMurlWrapped`. -/
def fixtureMurlTarget : String := "https://x.test/a.jpg"

/-- A redirector URL using the `mediaurl` wrapper parameter. -/
def fixtureMediaurlWrapped : String :=
  "https://r.example/detail?mediaurl=https%3A%2F%2Fx.test%2Fcar1.jpg"

def fixtureMediaurlTarget : String := "https://x.test/car1.jpg"

/-- An HTML fixture whose sole URL contains the double escape `&amp;amp;`. -/
def fixtureAmpHtml : String := "https://x.test/a?x=1&amp;amp;y=2"

/-- `fixtureAmpHtml` after one unescaping pass. -/
def fixtureAmpOnce : String := "https://x.test/a?x=1&amp;y=2"

/-- `fixtureAmpHtml` after two unescaping passes. -/
def fixtureAmpTwice : String := "https://x.test/a?x=1&y=2"

/-- An HTML fixture whose output URL is stable under re-extraction. -/
def fixtureStableHtml : String := "https://x.test/car.jpg"

def emptyStr : String := ""

def webpCt : String := "image/webp"

def avifCt : String := "image/avif"

def webpExt : String := "webp"

def avifExt : String := "avif"

def imageJpegCt : String := "image/jpeg"

def fixtureUnknownCt : String := "image/x-unknown"

def fixtureQueryCar : String := "car"

/-- `generateFilename bingExtensionMapping _ "car" (some "image/avif") 0`. -/
def fixtureAvifFilename : String := "car_000000000000.jpg"

/-- Eight distinct fresh image URLs for the `maxLinks = 5` scenario. -/
def fixtureUrls8 : List String :=
  ["https://x.test/cars/1.jpg", "https://x.test/cars/2.jpg",
   "https://x.test/cars/3.jpg", "https://x.test/cars/4.jpg",
   "https://x.test/cars/5.jpg", "https://x.test/cars/6.jpg",
   "https://x.test/cars/7.jpg", "https://x.test/cars/8.jpg"]

/-- A benign environment: every lookup succeeds and finds nothing raised,
every probe reports `image/jpeg`, every download succeeds. -/
def fixtureEnv : CrawlEnv :=
  { contentType := fun _ => some imageJpegCt
    downloadOk := fun _ => true
    lookupRaises := fun _ => false
    idGen := fun k => String.mk ('i' :: 'd' :: '-' :: (sha1Hex12 k).data)
    tsGen := fun k => k }

/-- An environment whose store lookups always raise. -/
def fixtureRaisingEnv : CrawlEnv :=
  { contentType := fun _ => some imageJpegCt
    downloadOk := fun _ => true
    lookupRaises := fun _ => true
    idGen := fun _ => fixtureIdOne
    tsGen := fun _ => 0 }

def fixtureSourceName : String := "web_scraping"

def fixtureResourceDir : String := "blob/web_scraping"

/-! ## Helper lemmas -/

/-! ### Deduplication -/

theorem dedupFirstAux_cons_of_mem {seen : List String} {u : String} (us : List String)
    (h : u ∈ seen) : dedupFirstAux seen (u :: us) = dedupFirstAux seen us := by
  simp [dedupFirstAux, h]

theorem dedupFirstAux_cons_of_not_mem {seen : List String} {u : String} (us : List String)
    (h : u ∉ seen) : dedupFirstAux seen (u :: us) = u :: dedupFirstAux (u :: seen) us := by
  simp [dedupFirstAux, h]

theorem mem_dedupFirstAux (l : List String) :
    ∀ (seen : List String) (v : String),
      v ∈ dedupFirstAux seen l ↔ v ∈ l ∧ v ∉ seen := by
  induction l with
  | nil => intro seen v; simp [dedupFirstAux]
  | cons u us ih =>
    intro seen v
    by_cases hu : u ∈ seen
    · rw [dedupFirstAux_cons_of_mem us hu, ih]
      constructor
      · rintro ⟨hv, hns⟩; exact ⟨List.mem_cons_of_mem _ hv, hns⟩
      · rintro ⟨hv, hns⟩
        rcases List.mem_cons.1 hv with rfl | hv
        · exact absurd hu hns
        · exact ⟨hv, hns⟩
    · rw [dedupFirstAux_cons_of_not_mem us hu]
      simp only [List.mem_cons, ih]
      constructor
      · rintro (rfl | ⟨hv, hns⟩)
        · exact ⟨Or.inl rfl, hu⟩
        · exact ⟨Or.inr hv, fun hs => hns (Or.inr hs)⟩
      · rintro ⟨rfl | hv, hns⟩
        · exact Or.inl rfl
        · by_cases hvu : v = u
          · exact Or.inl hvu
          · exact Or.inr ⟨hv, by simp [hvu, hns]⟩

theorem mem_dedupFirst (l : List String) (v : String) :
    v ∈ dedupFirst l ↔ v ∈ l := by
  simp [dedupFirst, mem_dedupFirstAux]

theorem dedupFirstAux_sublist (l : List String) :
    ∀ seen : List String, List.Sublist (dedupFirstAux seen l) l := by
  induction l with
  | nil => intro seen; simp [dedupFirstAux]
  | cons u us ih =>
    intro seen
    by_cases hu : u ∈ seen
    · rw [dedupFirstAux_cons_of_mem us hu]
      exact (ih seen).cons u
    · rw [dedupFirstAux_cons_of_not_mem us hu]
      exact (ih (u :: seen)).cons₂ u

theorem dedupFirst_sublist (l : List String) : List.Sublist (dedupFirst l) l :=
  dedupFirstAux_sublist l []

theorem dedupFirstAux_nodup (l : List String) :
    ∀ seen : List String, (dedupFirstAux seen l).Nodup := by
  induction l with
  | nil => intro seen; simp [dedupFirstAux]
  | cons u us ih =>
    intro seen
    by_cases hu : u ∈ seen
    · rw [dedupFirstAux_cons_of_mem us hu]; exact ih seen
    · rw [dedupFirstAux_cons_of_not_mem us hu]
      refine List.nodup_cons.2 ⟨fun hmem => ?_, ih (u :: seen)⟩
      exact ((mem_dedupFirstAux us (u :: seen) u).1 hmem).2 (List.mem_cons_self u seen)

theorem dedupFirst_nodup (l : List String) : (dedupFirst l).Nodup :=
  dedupFirstAux_nodup l []

theorem dedupFirstAux_eq_self (l : List String) :
    ∀ seen : List String, l.Nodup → (∀ v ∈ l, v ∉ seen) → dedupFirstAux seen l = l := by
  induction l with
  | nil => intro seen _ _; rfl
  | cons u us ih =>
    intro seen hnd hdisj
    have hu : u ∉ seen := hdisj u (List.mem_cons_self u us)
    rw [dedupFirstAux_cons_of_not_mem us hu]
    have hnd' := List.nodup_cons.1 hnd
    refine congrArg (List.cons u) (ih (u :: seen) hnd'.2 ?_)
    intro v hv
    simp only [List.mem_cons]
    rintro (rfl | hs)
    · exact hnd'.1 hv
    · exact hdisj v (List.mem_cons_of_mem _ hv) hs

theorem dedupFirst_eq_self_of_nodup {l : List String} (h : l.Nodup) :
    dedupFirst l = l :=
  dedupFirstAux_eq_self l [] h (by simp)

theorem dedupFirst_idem (l : List String) :
    dedupFirst (dedupFirst l) = dedupFirst l :=
  dedupFirst_eq_self_of_nodup (dedupFirst_nodup l)

theorem filter_dedupFirstAux_congr (p : String → Bool) (l : List String) :
    ∀ seen₁ seen₂ : List String,
      (∀ x, p x = true → (x ∈ seen₁ ↔ x ∈ seen₂)) →
      (dedupFirstAux seen₁ l).filter p = (dedupFirstAux seen₂ l).filter p := by
  induction l with
  | nil => intro _ _ _; rfl
  | cons u us ih =>
    intro seen₁ seen₂ hagree
    have hcons : ∀ x, p x = true → (x ∈ u :: seen₁ ↔ x ∈ u :: seen₂) := by
      intro x hx
      simp only [List.mem_cons]
      exact or_congr Iff.rfl (hagree x hx)
    by_cases hpu : p u = true
    · have hiff := hagree u hpu
      by_cases h1 : u ∈ seen₁
      · have h2 : u ∈ seen₂ := hiff.1 h1
        rw [dedupFirstAux_cons_of_mem us h1, dedupFirstAux_cons_of_mem us h2]
        exact ih seen₁ seen₂ hagree
      · have h2 : u ∉ seen₂ := fun h => h1 (hiff.2 h)
        rw [dedupFirstAux_cons_of_not_mem us h1, dedupFirstAux_cons_of_not_mem us h2]
        simp only [List.filter_cons, hpu]
        rw [ih _ _ hcons]
    · have hpu' : p u = false := by simpa using hpu
      have hskip : ∀ {seen seen' : List String}, u ∉ seen →
          (∀ x, p x = true → (x ∈ u :: seen ↔ x ∈ seen')) →
          ((u :: dedupFirstAux (u :: seen) us).filter p =
            (dedupFirstAux seen' us).filter p) := by
        intro seen seen' _ hag
        simp only [List.filter_cons, hpu', Bool.false_eq_true, if_false]
        exact ih _ _ hag
      by_cases h1 : u ∈ seen₁ <;> by_cases h2 : u ∈ seen₂
      · rw [dedupFirstAux_cons_of_mem us h1, dedupFirstAux_cons_of_mem us h2]
        exact ih seen₁ seen₂ hagree
      · rw [dedupFirstAux_cons_of_mem us h1, dedupFirstAux_cons_of_not_mem us h2]
        refine (hskip h2 ?_).symm
        intro x hx
        have hxu : x ≠ u := fun h => by rw [h] at hx; exact absurd hx (by simp [hpu'])
        simp only [List.mem_cons, hxu, false_or]
        exact (hagree x hx).symm
      · rw [dedupFirstAux_cons_of_not_mem us h1, dedupFirstAux_cons_of_mem us h2]
        refine hskip h1 ?_
        intro x hx
        have hxu : x ≠ u := fun h => by rw [h] at hx; exact absurd hx (by simp [hpu'])
        simp only [List.mem_cons, hxu, false_or]
        exact hagree x hx
      · rw [dedupFirstAux_cons_of_not_mem us h1, dedupFirstAux_cons_of_not_mem us h2]
        simp only [List.filter_cons, hpu', Bool.false_eq_true, if_false]
        exact ih _ _ hcons

theorem dedupFirst_filter (p : String → Bool) (l : List String) :
    ∀ seen : List String,
      dedupFirstAux seen (l.filter p) = (dedupFirstAux seen l).filter p := by
  induction l with
  | nil => intro _; rfl
  | cons u us ih =>
    intro seen
    by_cases hpu : p u = true
    · by_cases h1 : u ∈ seen
      · rw [List.filter_cons_of_pos hpu, dedupFirstAux_cons_of_mem _ h1,
          dedupFirstAux_cons_of_mem us h1]
        exact ih seen
      · rw [List.filter_cons_of_pos hpu, dedupFirstAux_cons_of_not_mem _ h1,
          dedupFirstAux_cons_of_not_mem us h1]
        simp only [List.filter_cons, hpu, if_true]
        rw [ih (u :: seen)]
    · have hpu' : p u = false := by simpa using hpu
      by_cases h1 : u ∈ seen
      · rw [List.filter_cons_of_neg (by simp [hpu']), dedupFirstAux_cons_of_mem us h1]
        exact ih seen
      · rw [List.filter_cons_of_neg (by simp [hpu']), dedupFirstAux_cons_of_not_mem us h1]
        simp only [List.filter_cons, hpu', Bool.false_eq_true, if_false]
        rw [ih seen]
        refine filter_dedupFirstAux_congr p us seen (u :: seen) ?_
        intro x hx
        have hxu : x ≠ u := fun h => by rw [h] at hx; exact absurd hx (by simp [hpu'])
        simp [List.mem_cons, hxu]

theorem dedupFirst_filter_dedupFirst (p : String → Bool) (l : List String) :
    dedupFirst ((dedupFirst l).filter p) = dedupFirst (l.filter p) := by
  unfold dedupFirst
  rw [dedupFirst_filter p l [], dedupFirst_filter p (dedupFirstAux [] l) []]
  have h2 : dedupFirstAux [] (dedupFirstAux [] l) = dedupFirstAux [] l :=
    dedupFirst_idem l
  rw [h2]

/-! ### The duplicate-store gateway: C1 and C2 -/

/-- C1 counterexample.  The claim says a second `upsertPending` with the same
canonical URL returns the identifier of the first record; in the code the
second `create_image_resource` call violates the unique constraint and
re-raises after rollback (modelled by `Except.error`), so it returns no
identifier at all. -/
theorem create_image_resource_second_call_errors :
    createImageResource [] fixtureIdOne fixtureCreateA =
      Except.ok ([fixtureRecA], fixtureRecA) ∧
    createImageResource [fixtureRecA] fixtureIdTwo fixtureCreateA =
      Except.error integrityErrMsg := by
  constructor
  · rfl
  · rfl

/-- C1 (amended).  Creating a record for a fresh URL succeeds and appends
exactly one record; a second creation for the same URL raises the integrity
error and leaves the store with exactly one record carrying that URL — the
uniqueness half of the claim holds but the second call errors instead of
returning the first identifier. -/
theorem create_image_resource_unique_url (db db1 : List ImageRecord)
    (d : ImageCreateData) (id1 id2 : String) (r1 : ImageRecord)
    (hfresh : ∀ r ∈ db, r.url ≠ d.url)
    (hok : createImageResource db id1 d = Except.ok (db1, r1)) :
    createImageResource db1 id2 d = Except.error integrityErrMsg ∧
    (db1.filter (fun r => r.url = d.url)).length = 1 ∧
    db1 = db ++ [r1] := by
  have hany : db.any (fun r => r.url = d.url) = false := by
    simp only [List.any_eq_false, decide_eq_true_eq]
    exact hfresh
  rw [createImageResource, hany] at hok
  simp only [Bool.false_eq_true, if_false, Except.ok.injEq, Prod.mk.injEq] at hok
  obtain ⟨hdb1, hr1⟩ := hok
  subst hdb1
  subst hr1
  refine ⟨?_, ?_, rfl⟩
  · simp [createImageResource]
  · rw [List.filter_append]
    have hleft : db.filter (fun r => decide (r.url = d.url)) = [] := by
      rw [List.filter_eq_nil_iff]
      intro r hr
      simp [hfresh r hr]
    rw [hleft]
    simp

/-- C1 witness: the amended theorem instantiated at the concrete fixture. -/
theorem create_image_resource_unique_url_witness :
    createImageResource [fixtureRecA] fixtureIdTwo fixtureCreateA =
      Except.error integrityErrMsg ∧
    ([fixtureRecA].filter (fun r => r.url = fixtureCreateA.url)).length = 1 ∧
    [fixtureRecA] = [] ++ [fixtureRecA] :=
  create_image_resource_unique_url [] [fixtureRecA] fixtureCreateA
    fixtureIdOne fixtureIdTwo fixtureRecA (by simp) (by rfl)

/-- C2 counterexample.  The claim says `markStatus` rejects
`completed → pending`; `update_download_status` performs no transition check,
so a completed record is moved back to `pending` (and the call reports the
updated row rather than a rejection). -/
theorem update_download_status_completed_to_pending :
    fixtureRecCompleted.downloadStatus = statusCompleted ∧
    (updateDownloadStatus [fixtureRecCompleted] fixtureRecId statusPending none).1 =
      [fixtureRecDowngraded] ∧
    fixtureRecDowngraded.downloadStatus = statusPending ∧
    (updateDownloadStatus [fixtureRecCompleted] fixtureRecId statusPending none).2 =
      some fixtureRecDowngraded := by
  refine ⟨rfl, ?_, rfl, ?_⟩ <;> rfl

/-- C2 (amended).  `update_download_status` validates nothing: for every
requested status (including `pending` on a `completed` record) the matching
record's status becomes exactly the requested one, non-matching records are
untouched, and no record is ever removed. -/
theorem update_download_status_no_validation (db : List ImageRecord)
    (imageId status : String) (err : Option String) (r : ImageRecord) :
    (r ∈ (updateDownloadStatus db imageId status err).1 → r.id = imageId →
      r.downloadStatus = status) ∧
    (r ∈ (updateDownloadStatus db imageId status err).1 → r.id ≠ imageId →
      r ∈ db) ∧
    (updateDownloadStatus db imageId status err).1.length = db.length := by
  refine ⟨?_, ?_, ?_⟩
  · intro hmem hid
    simp only [updateDownloadStatus, List.mem_map] at hmem
    obtain ⟨r0, _, hr0⟩ := hmem
    by_cases h : r0.id = imageId
    · rw [if_pos h] at hr0
      rw [← hr0]
      rfl
    · rw [if_neg h] at hr0
      exact absurd (hr0 ▸ hid) h
  · intro hmem hid
    simp only [updateDownloadStatus, List.mem_map] at hmem
    obtain ⟨r0, hr0mem, hr0⟩ := hmem
    by_cases h : r0.id = imageId
    · rw [if_pos h] at hr0
      exfalso
      apply hid
      rw [← hr0]
      exact h
    · rw [if_neg h] at hr0
      exact hr0 ▸ hr0mem
  · simp [updateDownloadStatus]

/-- C2 witness: the amended theorem applied to the completed fixture record
with a `pending` request. -/
theorem update_download_status_no_validation_witness :
    fixtureRecDowngraded.downloadStatus = statusPending :=
  (update_download_status_no_validation [fixtureRecCompleted] fixtureRecId
    statusPending none fixtureRecDowngraded).1 (by decide) (by decide)

/-! ### The URL normalizer: C3 -/

/-- C3 counterexample.  `fixtureMurlWrapped` carries the wrapper parameter
`murl` whose decoded value starts with `http`, so the claim requires it to be
replaced by that value; `BingCrawler`'s guard only fires on the substrings
`mediaurl=` / `imgurl=`, so the URL is kept as-is by the whole normalizer. -/
theorem bing_normalize_murl_not_resolved :
    qsGetFirst (queryOf fixtureMurlWrapped) "murl" = some fixtureMurlTarget ∧
    strStartsWith fixtureMurlTarget httpStr = true ∧
    bingNormalizeUrl fixtureMurlWrapped = fixtureMurlWrapped ∧
    bingNormalize [fixtureMurlWrapped] = [fixtureMurlWrapped] := by
  refine ⟨?_, ?_, ?_, ?_⟩ <;> rfl

/-- C3 (amended).  Characterization of `BingCrawler`'s normalizer: a URL is
replaced by the unescaped first wrapper value (keys `mediaurl`, `imgurl`,
`murl`, first `http`-valued key wins) exactly when it contains the substring
`mediaurl=` or `imgurl=` and such a value exists — a URL whose only wrapper
parameter is `murl` is kept as-is; the output is the noise-filtered,
order-preserving first-occurrence deduplication of the normalized input (with
Python's unordered set iteration modelled as insertion order). -/
theorem bing_normalize_characterization (urls : List String) (u v : String) :
    bingNormalize urls =
      dedupFirst ((urls.map bingNormalizeUrl).filter (fun w => !(bingNoise w))) ∧
    (bingNormalize urls).Nodup ∧
    List.Sublist (bingNormalize urls) (urls.map bingNormalizeUrl) ∧
    ((strContains u mediaurlEqSub || strContains u imgurlEqSub) = false →
      bingNormalizeUrl u = u) ∧
    ((strContains u mediaurlEqSub || strContains u imgurlEqSub) = true →
      firstWrapperValue bingWrapperKeys (queryOf u) = some v →
      bingNormalizeUrl u = unescapeBingJsonUrl v) ∧
    ((strContains u mediaurlEqSub || strContains u imgurlEqSub) = true →
      firstWrapperValue bingWrapperKeys (queryOf u) = none →
      bingNormalizeUrl u = u) ∧
    (v ∈ bingNormalize urls ↔
      bingNoise v = false ∧ ∃ w, w ∈ urls ∧ v = bingNormalizeUrl w) := by
  have hchar : bingNormalize urls =
      dedupFirst ((urls.map bingNormalizeUrl).filter (fun w => !(bingNoise w))) := by
    unfold bingNormalize
    exact dedupFirst_filter_dedupFirst _ _
  refine ⟨hchar, dedupFirst_nodup _, ?_, ?_, ?_, ?_, ?_⟩
  · rw [hchar]
    exact (dedupFirst_sublist _).trans (List.filter_sublist _)
  · intro hguard
    rw [bingNormalizeUrl, hguard]
    simp
  · intro hguard hval
    rw [bingNormalizeUrl, hguard, hval]
    simp
  · intro hguard hval
    rw [bingNormalizeUrl, hguard, hval]
    simp
  · rw [hchar, mem_dedupFirst, List.mem_filter]
    simp only [List.mem_map, Bool.not_eq_eq_eq_not, Bool.not_true]
    constructor
    · rintro ⟨⟨w, hw, rfl⟩, hnoise⟩
      exact ⟨hnoise, w, hw, rfl⟩
    · rintro ⟨hnoise, w, hw, rfl⟩
      exact ⟨⟨w, hw, rfl⟩, hnoise⟩

/-- C3 witness: the wrapper-resolution conjunct of the amended theorem at a
concrete `mediaurl=` redirector. -/
theorem bing_normalize_characterization_witness :
    bingNormalizeUrl fixtureMediaurlWrapped = unescapeBingJsonUrl fixtureMediaurlTarget :=
  (bing_normalize_characterization [] fixtureMediaurlWrapped
    fixtureMediaurlTarget).2.2.2.2.1 (by decide) (by decide)

/-! ### The fetcher: C4 and C5 -/

/-- On a retryable status (403/429/500/502/503/504) repeated on every attempt,
the fetch loop started at `attempt` with `fuel = maxRetries - attempt`
remaining iterations fails, issues exactly `fuel` requests, and sleeps
according to the configured retry strategy between consecutive attempts. -/
theorem fetchLoop_retryable_all_fail (code : Nat) (body : Nat → String)
    (maxRetries : Nat) (retryDelay : ℚ) (strategy : Option String) (rand : Nat → ℚ)
    (hcode : code = 403 ∨ code = 429 ∨ code = 500 ∨ code = 502 ∨ code = 503 ∨ code = 504) :
    ∀ (fuel attempt : Nat), attempt + fuel = maxRetries →
      fetchLoop (fun a => HttpOutcome.response code (body a)) maxRetries retryDelay
          strategy rand attempt fuel =
        ⟨none, fuel, (List.range' attempt (fuel - 1)).map
          (fun a => applyRetryStrategy strategy a retryDelay (rand a))⟩ := by
  intro fuel
  induction fuel with
  | zero => intro attempt _; rfl
  | succ f ih =>
    intro attempt hsum
    have hne200 : code ≠ 200 := by rcases hcode with h | h | h | h | h | h <;> omega
    rw [fetchLoop]
    simp only []
    rw [if_neg hne200]
    have hretry :
        (if attempt + 1 < maxRetries then
          let w := applyRetryStrategy strategy attempt retryDelay (rand attempt)
          let t := fetchLoop (fun a => HttpOutcome.response code (body a)) maxRetries
            retryDelay strategy rand (attempt + 1) f
          (⟨t.result, t.requests + 1, w :: t.waits⟩ : FetchTrace)
        else ⟨none, 1, []⟩) =
        ⟨none, f + 1, (List.range' attempt (f + 1 - 1)).map
          (fun a => applyRetryStrategy strategy a retryDelay (rand a))⟩ := by
      match f, hsum with
      | 0, hsum =>
        rw [if_neg (by omega)]
        simp [List.range']
      | f' + 1, hsum =>
        rw [if_pos (by omega), ih (attempt + 1) (by omega)]
        simp [List.range'_succ]
    rcases hcode with h | h | h | h | h | h <;> subst h <;> exact hretry

/-- C5.  When every attempt answers 403, `fetch_html` issues exactly
`max_retries` requests — no more, no fewer — and reports failure to its
caller as the returned value `None` (the model's total function returns
`none`; no exception escapes the loop). -/
theorem fetch_html_403_exhausts_exactly_max_retries (body : Nat → String)
    (maxRetries : Nat) (retryDelay : ℚ) (strategy : Option String) (rand : Nat → ℚ) :
    (fetchHtml (fun a => HttpOutcome.response 403 (body a)) maxRetries retryDelay
        strategy rand).result = none ∧
    (fetchHtml (fun a => HttpOutcome.response 403 (body a)) maxRetries retryDelay
        strategy rand).requests = maxRetries := by
  have h := fetchLoop_retryable_all_fail 403 body maxRetries retryDelay strategy rand
    (Or.inl rfl) maxRetries 0 (by omega)
  rw [fetchHtml, h]
  exact ⟨rfl, rfl⟩

/-- C4 counterexample.  With the default retry configuration (no
`set_retry_strategy` call, so the `base * (attempt + 1)` fallback applies) and
every attempt rate-limited, the sleeps are `[1, 2, 3]`: the wait before retry
attempt 2 is `3`, strictly below `base * 2^2 = 4`, the minimum the claimed
`base * 2^attempt + jitter` formula (jitter ≥ 0) allows. -/
theorem fetch_backoff_not_exponential_with_jitter :
    (fetchHtml (fun _ => HttpOutcome.response 429 emptyStr) 4 1 none (fun _ => 0)).waits =
      [1, 2, 3] ∧
    (3 : ℚ) < 1 * 2 ^ 2 := by
  constructor
  · norm_num [fetchHtml, fetchLoop, applyRetryStrategy]
  · norm_num

/-- C4 (amended).  On persistent 429 (and likewise persistent 503), the
fetcher retries up to `max_retries` attempts and then fails; the delay slept
after failed attempt `a` is `applyRetryStrategy strategy a base (rand a)` —
`base * (attempt + 1)` for the default/linear strategy, `base * 2^attempt`
with no added jitter for the exponential strategy, `uniform(base, 3*base)` for
the random strategy.  The `base * 2^attempt + uniform(0,1)` formula of the
claim exists only in the separate Vecteezy-specific path. -/
theorem fetch_retry_schedule_follows_strategy (body : Nat → String)
    (maxRetries : Nat) (retryDelay : ℚ) (strategy : Option String) (rand : Nat → ℚ) :
    fetchHtml (fun a => HttpOutcome.response 429 (body a)) maxRetries retryDelay
        strategy rand =
      ⟨none, maxRetries, (List.range (maxRetries - 1)).map
        (fun a => applyRetryStrategy strategy a retryDelay (rand a))⟩ ∧
    fetchHtml (fun a => HttpOutcome.response 503 (body a)) maxRetries retryDelay
        strategy rand =
      ⟨none, maxRetries, (List.range (maxRetries - 1)).map
        (fun a => applyRetryStrategy strategy a retryDelay (rand a))⟩ := by
  rw [List.range_eq_range']
  constructor
  · exact fetchLoop_retryable_all_fail 429 body maxRetries retryDelay strategy rand
      (by simp) maxRetries 0 (by omega)
  · exact fetchLoop_retryable_all_fail 503 body maxRetries retryDelay strategy rand
      (by simp) maxRetries 0 (by omega)

/-! ### Extension inference and filenames: C6 and C10 -/

theorem data_mk (l : List Char) : (String.mk l).data = l := rfl

/-- C6 counterexample.  The claim says extension inference maps `image/avif`
to `avif`; `BingCrawler`'s mapping (one of the claim's cited functions) has no
`avif` entry, so inference yields `None` there and the generated filename
falls back to the `jpg` default. -/
theorem bing_avif_not_mapped :
    inferExtensionFromContentType bingExtensionMapping (some avifCt) = none ∧
    inferExtensionFromContentType bingExtensionMapping (some avifCt) ≠ some avifExt ∧
    generateFilename bingExtensionMapping fixtureUrlA fixtureQueryCar (some avifCt) 0 =
      fixtureAvifFilename := by
  refine ⟨rfl, by decide, rfl⟩

/-- C6 (amended).  `WebScapingWorker`'s inference maps `image/webp` to `webp`
and `image/avif` to `avif`; `BingCrawler`'s maps `image/webp` to `webp` but
has no `image/avif` entry, so that content type infers no extension, and for
every content type on which inference fails (which includes every `image/*`
outside the mapping) filename generation uses the default extension `jpg`. -/
theorem extension_inference_amended (url query ct : String) (tsNs : Nat)
    (hnone : inferExtensionFromContentType bingExtensionMapping (some ct) = none) :
    inferExtensionFromContentType webExtensionMapping (some webpCt) = some webpExt ∧
    inferExtensionFromContentType webExtensionMapping (some avifCt) = some avifExt ∧
    inferExtensionFromContentType bingExtensionMapping (some webpCt) = some webpExt ∧
    inferExtensionFromContentType bingExtensionMapping (some avifCt) = none ∧
    ∃ stem, generateFilename bingExtensionMapping url query (some ct) tsNs =
      stem ++ "." ++ jpgStr := by
  refine ⟨rfl, rfl, rfl, rfl, ?_⟩
  rw [generateFilename, hnone]
  exact ⟨_, rfl⟩

/-- C6 witness: the amended theorem at an unmapped image content type. -/
theorem extension_inference_amended_witness :
    inferExtensionFromContentType webExtensionMapping (some avifCt) = some avifExt ∧
    ∃ stem, generateFilename bingExtensionMapping fixtureUrlA fixtureQueryCar
      (some fixtureUnknownCt) 0 = stem ++ "." ++ jpgStr :=
  ⟨(extension_inference_amended fixtureUrlA fixtureQueryCar fixtureUnknownCt 0
      (by decide)).2.1,
   (extension_inference_amended fixtureUrlA fixtureQueryCar fixtureUnknownCt 0
      (by decide)).2.2.2.2⟩

theorem hexChar_alnum : ∀ n, n < 16 → (hexChar n).isAlphanum = true := by decide

theorem sha1Hex12_chars (tsNs : Nat) :
    ∀ c ∈ (sha1Hex12 tsNs).data, c.isAlphanum = true := by
  intro c hc
  simp only [sha1Hex12, data_mk, List.mem_map, List.mem_range] at hc
  obtain ⟨i, _, rfl⟩ := hc
  exact hexChar_alnum _ (Nat.mod_lt _ (by norm_num))

theorem sanitizeFilename_chars (s : String) :
    ∀ c ∈ (sanitizeFilename s).data,
      (c.isAlphanum || c = '-' || c = '_' || c = '.') = true := by
  intro c hc
  simp only [sanitizeFilename, data_mk, List.mem_map, List.mem_filter] at hc
  obtain ⟨c0, ⟨_, hk⟩, rfl⟩ := hc
  by_cases hsp : c0 = ' '
  · simp [hsp]
  · rw [if_neg hsp]
    simp only [fnKeepChar, Bool.or_eq_true, decide_eq_true_eq] at hk
    rcases hk with ((((h | h) | h) | h) | h) <;> simp_all

/-- The inferred extension (or the `jpg` fallback) of either crawler's mapping
consists of alphanumeric characters. -/
theorem extension_chars (mapping : List (String × String)) (ct : Option String)
    (hm : mapping = bingExtensionMapping ∨ mapping = webExtensionMapping) :
    ∀ c ∈ ((inferExtensionFromContentType mapping ct).getD jpgStr).data,
      c.isAlphanum = true := by
  rcases hct : inferExtensionFromContentType mapping ct with _ | v
  · intro c hc
    simp only [Option.getD_none] at hc
    revert c
    decide
  · intro c hc
    simp only [Option.getD_some] at hc
    rcases ct with _ | cts
    · exact absurd hct (by simp [inferExtensionFromContentType])
    · simp only [inferExtensionFromContentType, Option.map_eq_some'] at hct
      obtain ⟨p, hfind, hp⟩ := hct
      have hpmem := List.mem_of_find?_eq_some hfind
      rcases hm with rfl | rfl
      · have hall : ∀ p ∈ bingExtensionMapping, ∀ c ∈ p.2.data, c.isAlphanum = true := by
          decide
        exact hall p hpmem c (hp ▸ hc)
      · have hall : ∀ p ∈ webExtensionMapping, ∀ c ∈ p.2.data, c.isAlphanum = true := by
          decide
        exact hall p hpmem c (hp ▸ hc)

/-- C10.  For either crawler's mapping and every query/content-type/timestamp,
the generated filename consists only of alphanumerics and `-`, `_`, `.`;
contains no space and no path separator; ends with a dot followed by the
inferred extension (`jpg` when none is inferred); and an empty or
fully-sanitized-away query yields the `query` slug. -/
theorem generate_filename_safe (mapping : List (String × String))
    (url query : String) (ct : Option String) (tsNs : Nat)
    (hm : mapping = bingExtensionMapping ∨ mapping = webExtensionMapping) :
    (∀ c ∈ (generateFilename mapping url query ct tsNs).data,
      (c.isAlphanum || c = '-' || c = '_' || c = '.') = true) ∧
    (∀ c ∈ (generateFilename mapping url query ct tsNs).data,
      c ≠ ' ' ∧ c ≠ '/' ∧ c ≠ '\\') ∧
    List.IsSuffix (("." ++ (inferExtensionFromContentType mapping ct).getD jpgStr).data)
      (generateFilename mapping url query ct tsNs).data ∧
    (sanitizeFilename (underscoreSpaces (pyStrip query)) = "" →
      ∃ tl, generateFilename mapping url query ct tsNs = querySlugDefault ++ tl) := by
  have hchars : ∀ c ∈ (generateFilename mapping url query ct tsNs).data,
      (c.isAlphanum || c = '-' || c = '_' || c = '.') = true := by
    intro c hc
    rw [generateFilename] at hc
    simp only [String.data_append, List.mem_append] at hc
    rcases hc with (((hc | hc) | hc) | hc) | hc
    · by_cases hempty : sanitizeFilename (underscoreSpaces (pyStrip query)) = ""
      · rw [if_pos hempty] at hc
        revert c
        decide
      · rw [if_neg hempty] at hc
        exact sanitizeFilename_chars _ c hc
    · revert c
      decide
    · simp [sha1Hex12_chars tsNs c hc]
    · revert c
      decide
    · have hext := extension_chars mapping ct hm c hc
      simp [hext]
  refine ⟨hchars, ?_, ?_, ?_⟩
  · intro c hc
    have h1 := hchars c hc
    refine ⟨?_, ?_, ?_⟩ <;> rintro rfl <;> exact absurd h1 (by decide)
  · refine ⟨((if sanitizeFilename (underscoreSpaces (pyStrip query)) = "" then
      querySlugDefault else sanitizeFilename (underscoreSpaces (pyStrip query))) ++
      "_" ++ sha1Hex12 tsNs).data, ?_⟩
    rw [generateFilename]
    simp [String.data_append, List.append_assoc]
  · intro hempty
    refine ⟨"_" ++ sha1Hex12 tsNs ++ "." ++
      ((inferExtensionFromContentType mapping ct).getD jpgStr), ?_⟩
    apply String.ext
    rw [generateFilename, if_pos hempty]
    simp [String.data_append, List.append_assoc]

/-- C10 witness: the suffix and default-slug conjuncts at a concrete input. -/
theorem generate_filename_safe_witness :
    List.IsSuffix (("." ++ (inferExtensionFromContentType webExtensionMapping
        (some webpCt)).getD jpgStr).data)
      (generateFilename webExtensionMapping fixtureUrlA emptyStr (some webpCt) 0).data ∧
    ∃ tl, generateFilename webExtensionMapping fixtureUrlA emptyStr (some webpCt) 0 =
      querySlugDefault ++ tl :=
  ⟨(generate_filename_safe webExtensionMapping fixtureUrlA emptyStr (some webpCt) 0
      (Or.inr rfl)).2.2.1,
   (generate_filename_safe webExtensionMapping fixtureUrlA emptyStr (some webpCt) 0
      (Or.inr rfl)).2.2.2 (by decide)⟩

/-! ### Extraction stability lemmas (towards C7) -/

theorem startsWithCh_append (p : List Char) :
    ∀ (s t : List Char), startsWithCh p s = true → startsWithCh p (s ++ t) = true := by
  induction p with
  | nil => intro s t _; rfl
  | cons a ps ih =>
    intro s t hs
    cases s with
    | nil => exact absurd hs (by simp [startsWithCh])
    | cons c cs =>
      simp only [startsWithCh, Bool.and_eq_true] at hs
      simp only [List.cons_append, startsWithCh, Bool.and_eq_true]
      exact ⟨hs.1, ih cs t hs.2⟩

theorem startsWithCh_of_append_left (a b : List Char) :
    ∀ s : List Char, startsWithCh (a ++ b) s = true → startsWithCh a s = true := by
  induction a with
  | nil => intro s _; rfl
  | cons x xs ih =>
    intro s hs
    cases s with
    | nil => exact absurd hs (by simp [startsWithCh])
    | cons c cs =>
      simp only [List.cons_append, startsWithCh, Bool.and_eq_true] at hs
      simp only [startsWithCh, Bool.and_eq_true]
      exact ⟨hs.1, ih cs hs.2⟩

theorem httpsLit_decomp : httpsLit = httpStr.data ++ [('s' : Char), ':', '/', '/'] := by
  decide

theorem startsWithCh_http_of_https (s : List Char)
    (h : startsWithCh httpsLit s = true) : startsWithCh httpStr.data s = true :=
  startsWithCh_of_append_left httpStr.data _ s (httpsLit_decomp ▸ h)

theorem takeWhile_append_of_all (p : Char → Bool) (x : Char) (hx : p x = false) :
    ∀ (u t : List Char), u.all p = true →
      List.takeWhile p (u ++ x :: t) = u := by
  intro u
  induction u with
  | nil => intro t _; simp [List.takeWhile, hx]
  | cons c cs ih =>
    intro t hall
    simp only [List.all_cons, Bool.and_eq_true] at hall
    rw [List.cons_append, List.takeWhile_cons, if_pos hall.1, ih t hall.2]

theorem genericScanF_nil (fuel : Nat) : genericScanF fuel [] = [] := by
  cases fuel <;> rfl

theorem genericAllowed_newline : genericAllowed '\n' = false := by decide

theorem startsWithCh_httpsLit_newline (t : List Char) :
    startsWithCh httpsLit ('\n' :: t) = false := by
  have hd : httpsLit = ('h' : Char) :: ['t', 't', 'p', 's', ':', '/', '/'] := by decide
  rw [hd]
  simp [startsWithCh]

theorem genericScanF_joinNl :
    ∀ (us : List (List Char)) (fuel : Nat),
      (∀ u ∈ us, startsWithCh httpsLit u = true ∧ 9 ≤ u.length ∧
        u.all genericAllowed = true) →
      (joinNl us).length ≤ fuel →
      genericScanF fuel (joinNl us) = us := by
  intro us
  induction us with
  | nil => intro fuel _ _; exact genericScanF_nil fuel
  | cons u us ih =>
    intro fuel hgood hfuel
    obtain ⟨hstart, hlen, hall⟩ := hgood u (List.mem_cons_self u us)
    have hrest : ∀ v ∈ us, startsWithCh httpsLit v = true ∧ 9 ≤ v.length ∧
        v.all genericAllowed = true :=
      fun v hv => hgood v (List.mem_cons_of_mem u hv)
    cases u with
    | nil => simp at hlen
    | cons c u' =>
      simp only [joinNl, List.length_append, List.length_cons] at hfuel ⊢
      cases fuel with
      | zero => omega
      | succ f =>
        have htext : (c :: u') ++ '\n' :: joinNl us = c :: (u' ++ '\n' :: joinNl us) := rfl
        have hstart2 : startsWithCh httpsLit (c :: (u' ++ '\n' :: joinNl us)) = true := by
          rw [← htext]
          exact startsWithCh_append httpsLit (c :: u') ('\n' :: joinNl us) hstart
        have hrun : List.takeWhile genericAllowed (c :: (u' ++ '\n' :: joinNl us)) =
            c :: u' := by
          rw [← htext]
          exact takeWhile_append_of_all genericAllowed '\n' genericAllowed_newline
            (c :: u') (joinNl us) hall
        have hdrop : List.drop (c :: u').length (c :: (u' ++ '\n' :: joinNl us)) =
            '\n' :: joinNl us := by
          rw [← htext]
          exact List.drop_left (c :: u') ('\n' :: joinNl us)
        simp only [List.length_cons] at hlen hdrop
        rw [htext, genericScanF, if_pos hstart2, hrun]
        dsimp only [List.length_cons]
        rw [if_pos hlen, hdrop]
        have hlen2 : (joinNl us).length + 1 ≤ f := by omega
        cases f with
        | zero => omega
        | succ g =>
          rw [genericScanF, if_neg (by simp [startsWithCh_httpsLit_newline])]
          rw [ih g hrest (by omega)]

theorem captureAfterF_no_quote (pfx : List Char) (hpfx : pfx.head? = some '"') :
    ∀ (s : List Char) (fuel : Nat), (∀ c ∈ s, c ≠ '"') →
      captureAfterF pfx fuel s = [] := by
  cases pfx with
  | nil => simp at hpfx
  | cons p ps =>
    simp only [List.head?_cons, Option.some.injEq] at hpfx
    subst hpfx
    intro s
    induction s with
    | nil => intro fuel _; cases fuel <;> rfl
    | cons c cs ih =>
      intro fuel hno
      cases fuel with
      | zero => rfl
      | succ f =>
        have hc : c ≠ '"' := hno c (List.mem_cons_self c cs)
        have hsw : startsWithCh ('"' :: ps) (c :: cs) = false := by
          simp [startsWithCh]
          intro h
          exact absurd h.symm hc
        rw [captureAfterF, if_neg (by simp), if_neg (by rw [hsw]; simp)]
        exact ih f (fun x hx => hno x (List.mem_cons_of_mem c hx))

theorem imgScanF_no_lt :
    ∀ (s : List Char) (fuel : Nat), (∀ c ∈ s, c ≠ '<') →
      imgScanF fuel s = [] := by
  intro s
  induction s with
  | nil => intro fuel _; cases fuel <;> rfl
  | cons c cs ih =>
    intro fuel hno
    cases fuel with
    | zero => rfl
    | succ f =>
      have hc : c ≠ '<' := hno c (List.mem_cons_self c cs)
      have hsw : startsWithCh imgTagLit (c :: cs) = false := by
        have hd : imgTagLit = ('<' : Char) :: ['i', 'm', 'g'] := by decide
        rw [hd]
        simp [startsWithCh]
        intro h
        exact absurd h.symm hc
      rw [imgScanF, if_neg (by rw [hsw]; simp)]
      exact ih f (fun x hx => hno x (List.mem_cons_of_mem c hx))

theorem mem_joinNl :
    ∀ (us : List (List Char)) (c : Char), c ∈ joinNl us →
      c = '\n' ∨ ∃ u ∈ us, c ∈ u := by
  intro us
  induction us with
  | nil => intro c hc; simp [joinNl] at hc
  | cons u us ih =>
    intro c hc
    simp only [joinNl, List.mem_append, List.mem_cons] at hc
    rcases hc with hc | hc | hc
    · exact Or.inr ⟨u, List.mem_cons_self u us, hc⟩
    · exact Or.inl hc
    · rcases ih c hc with h | ⟨v, hv, hcv⟩
      · exact Or.inl h
      · exact Or.inr ⟨v, List.mem_cons_of_mem u hv, hcv⟩

theorem genericAllowed_ne_quote_lt (c : Char) (h : genericAllowed c = true) :
    c ≠ '"' ∧ c ≠ '<' := by
  constructor <;> rintro rfl <;> exact absurd h (by decide)

theorem webExtract_nodup (html : String) : (webExtract html).Nodup :=
  dedupFirst_nodup _

/-- Core stability result: an output list of stable URLs is re-extracted
verbatim from the text containing exactly those URLs (one per line). -/
theorem webExtract_render_stable (out : List String) (hn : out.Nodup)
    (h : ∀ u ∈ out, stableUrl u = true) :
    webExtract (renderUrls out) = out := by
  have hgood : ∀ u ∈ out, startsWithCh httpsLit u.data = true ∧ 9 ≤ u.data.length ∧
      u.data.all genericAllowed = true ∧ unescapeJsonUrl u = u ∧
      webNormalizeUrl u = u ∧ webNoise u = false := by
    intro u hu
    have hs := h u hu
    simp only [stableUrl, Bool.and_eq_true, beq_iff_eq, Bool.not_eq_true',
      decide_eq_true_eq] at hs
    exact ⟨hs.1.1.1.1.1, hs.1.1.1.1.2, hs.1.1.1.2, hs.1.1.2, hs.1.2, hs.2⟩
  have hdata : (renderUrls out).data = joinNl (out.map String.data) := rfl
  have hchars : ∀ c ∈ joinNl (out.map String.data), c ≠ '"' ∧ c ≠ '<' := by
    intro c hc
    rcases mem_joinNl _ c hc with rfl | ⟨u, hu, hcu⟩
    · exact ⟨by decide, by decide⟩
    · obtain ⟨u0, hu0, rfl⟩ := List.mem_map.1 hu
      exact genericAllowed_ne_quote_lt c
        (List.all_eq_true.1 (hgood u0 hu0).2.2.1 c hcu)
  have hnq : ∀ c ∈ joinNl (out.map String.data), c ≠ '"' := fun c hc => (hchars c hc).1
  have hnl : ∀ c ∈ joinNl (out.map String.data), c ≠ '<' := fun c hc => (hchars c hc).2
  have hgeneric : genericScanF (joinNl (out.map String.data)).length
      (joinNl (out.map String.data)) = out.map String.data := by
    refine genericScanF_joinNl (out.map String.data) _ ?_ (le_refl _)
    intro u hu
    obtain ⟨u0, hu0, rfl⟩ := List.mem_map.1 hu
    obtain ⟨h1, h2, h3, _, _, _⟩ := hgood u0 hu0
    exact ⟨h1, h2, h3⟩
  have hpat : webUrlPatternMatches (joinNl (out.map String.data)) = out.map String.data := by
    rw [webUrlPatternMatches,
      captureAfterF_no_quote murlCapPfx (by decide) _ _ hnq,
      captureAfterF_no_quote imageUrlCapPfx (by decide) _ _ hnq,
      captureAfterF_no_quote srcCapPfx (by decide) _ _ hnq,
      captureAfterF_no_quote urlCapPfx (by decide) _ _ hnq,
      imgScanF_no_lt _ _ hnl, hgeneric]
    simp
  have hfilter : List.filter (fun m => startsWithCh httpStr.data m)
      (out.map String.data) = out.map String.data := by
    rw [List.filter_eq_self]
    intro m hm
    obtain ⟨u0, hu0, rfl⟩ := List.mem_map.1 hm
    exact startsWithCh_http_of_https _ (hgood u0 hu0).1
  have hmapun : List.map (fun m => String.mk (unescapeJsonUrlL m))
      (out.map String.data) = out := by
    rw [List.map_map]
    calc List.map ((fun m => String.mk (unescapeJsonUrlL m)) ∘ String.data) out
        = List.map id out :=
          List.map_congr_left (fun u hu => (hgood u hu).2.2.2.1)
      _ = out := List.map_id out
  have hmapnorm : List.map webNormalizeUrl out = out := by
    calc List.map webNormalizeUrl out
        = List.map id out := List.map_congr_left (fun u hu => (hgood u hu).2.2.2.2.1)
      _ = out := List.map_id out
  have hfilter2 : List.filter (fun u => !(webNoise u)) out = out := by
    rw [List.filter_eq_self]
    intro u hu
    rw [(hgood u hu).2.2.2.2.2]
    rfl
  have hdd1 : dedupFirst out = out := dedupFirst_eq_self_of_nodup hn
  simp only [webExtract]
  rw [hdata, hpat, hfilter, hmapun, hdd1, hmapnorm, hdd1, hfilter2, hdd1]

/-- C7 counterexample.  Applying extraction+normalization to the text made of
exactly the previous output loses `&amp;`-escapes a second time:
`_unescape_json_url` is not idempotent (`&amp;amp;` collapses to `&amp;`,
which a second pass collapses to `&`), so the two output sets differ. -/
theorem extract_normalize_not_idempotent :
    webExtract fixtureAmpHtml = [fixtureAmpOnce] ∧
    webExtract (renderUrls (webExtract fixtureAmpHtml)) = [fixtureAmpTwice] ∧
    fixtureAmpOnce ∉ webExtract (renderUrls (webExtract fixtureAmpHtml)) := by
  refine ⟨by decide, by decide, by decide⟩

/-- C7 (amended).  Extraction+normalization applied to a text containing
exactly its own previous output (one URL per line) reproduces that output
provided every output URL is stable: it starts with `https://` and properly
extends it, contains only characters of the generic pattern's class, and is a
fixed point of unescaping, wrapper normalization, and the noise filter.  In
general a second application can differ, because `_unescape_json_url` is not
idempotent. -/
theorem extract_normalize_idempotent_on_stable (html : String)
    (h : (webExtract html).all stableUrl = true) :
    webExtract (renderUrls (webExtract html)) = webExtract html :=
  webExtract_render_stable (webExtract html) (webExtract_nodup html)
    (fun u hu => List.all_eq_true.1 h u hu)

/-- C7 witness: the amended theorem at a concrete single-URL page. -/
theorem extract_normalize_idempotent_on_stable_witness :
    (webExtract fixtureStableHtml).all stableUrl = true ∧
    webExtract (renderUrls (webExtract fixtureStableHtml)) =
      webExtract fixtureStableHtml :=
  ⟨by decide, extract_normalize_idempotent_on_stable fixtureStableHtml (by decide)⟩

/-! ### The crawl pipeline: C8 and C9 -/

theorem updateDownloadStatus_map_url (db : List ImageRecord)
    (imageId status : String) (err : Option String) :
    ((updateDownloadStatus db imageId status err).1).map (fun r => r.url) =
      db.map (fun r => r.url) := by
  simp only [updateDownloadStatus, List.map_map]
  refine List.map_congr_left (fun r _ => ?_)
  by_cases h : r.id = imageId <;> simp [h, applyStatusUpdate]

/-- Processing one fresh, image-verified candidate saves one record, makes one
download attempt, and appends exactly one record with that URL to the store. -/
theorem crawlProcessOne_fresh_image (env : CrawlEnv)
    (query sourceName resourceDir : String) (st : CrawlState) (u ct : String)
    (hraise : env.lookupRaises u = false)
    (hct : env.contentType u = some ct)
    (himg : isImageContentType ct = true)
    (hfresh : ∀ r ∈ st.db, r.url ≠ u) :
    (crawlProcessOne env query sourceName resourceDir st u).saved = st.saved + 1 ∧
    (crawlProcessOne env query sourceName resourceDir st u).downloadAttempts =
      st.downloadAttempts + 1 ∧
    (crawlProcessOne env query sourceName resourceDir st u).db.map (fun r => r.url) =
      st.db.map (fun r => r.url) ++ [u] := by
  have hex : checkImageExists (env.lookupRaises u) st.db u = false := by
    rw [hraise, checkImageExists]
    simp only [Bool.false_eq_true, if_false, getImageResourceByUrl]
    rw [List.find?_eq_none.2 (by simpa using hfresh)]
    rfl
  have hany : (st.db.any fun r => r.url = u) = false := by
    simp only [List.any_eq_false, decide_eq_true_eq]
    exact hfresh
  simp only [crawlProcessOne, hex, Bool.false_eq_true, if_false, hct, himg,
    Bool.not_true, createImageResource, hany]
  by_cases hdl : env.downloadOk u = true <;>
    simp [hdl, updateDownloadStatus_map_url]

/-- Folding the per-candidate step over a duplicate-free list of fresh,
image-verified candidates saves and download-attempts each one and appends
their URLs to the store in order. -/
theorem crawl_fold_all_fresh_images (env : CrawlEnv)
    (query sourceName resourceDir : String) :
    ∀ (urls : List String) (st : CrawlState),
      urls.Nodup →
      (∀ u ∈ urls, env.lookupRaises u = false ∧
        (∃ ct, env.contentType u = some ct ∧ isImageContentType ct = true)) →
      (∀ u ∈ urls, ∀ r ∈ st.db, r.url ≠ u) →
      (List.foldl (crawlProcessOne env query sourceName resourceDir) st urls).saved =
        st.saved + urls.length ∧
      (List.foldl (crawlProcessOne env query sourceName resourceDir) st urls).downloadAttempts =
        st.downloadAttempts + urls.length ∧
      (List.foldl (crawlProcessOne env query sourceName resourceDir) st urls).db.map
          (fun r => r.url) =
        st.db.map (fun r => r.url) ++ urls := by
  intro urls
  induction urls with
  | nil => intro st _ _ _; simp
  | cons u us ih =>
    intro st hnd hgood hfresh
    obtain ⟨hr, ct, hct, himg⟩ := hgood u (List.mem_cons_self u us)
    have step := crawlProcessOne_fresh_image env query sourceName resourceDir st u ct
      hr hct himg (hfresh u (List.mem_cons_self u us))
    have hnd' := List.nodup_cons.1 hnd
    have hfresh1 : ∀ v ∈ us,
        ∀ r ∈ (crawlProcessOne env query sourceName resourceDir st u).db, r.url ≠ v := by
      intro v hv r hrmem heq
      have hrurl : r.url ∈
          (crawlProcessOne env query sourceName resourceDir st u).db.map
            (fun r => r.url) := List.mem_map_of_mem _ hrmem
      rw [step.2.2] at hrurl
      rcases List.mem_append.1 hrurl with hin | hin
      · obtain ⟨r0, hr0, hr0url⟩ := List.mem_map.1 hin
        exact hfresh v (List.mem_cons_of_mem u hv) r0 hr0 (hr0url.trans heq)
      · have : u = v := by
          rw [← heq]
          exact (List.mem_singleton.1 hin).symm
        exact hnd'.1 (this ▸ hv)
    have ihr := ih (crawlProcessOne env query sourceName resourceDir st u) hnd'.2
      (fun v hv => hgood v (List.mem_cons_of_mem u hv)) hfresh1
    rw [List.foldl_cons]
    refine ⟨?_, ?_, ?_⟩
    · rw [ihr.1, step.1, List.length_cons]
      omega
    · rw [ihr.2.1, step.2.1, List.length_cons]
      omega
    · rw [ihr.2.2, step.2.2, List.append_assoc]
      rfl

/-- C8.  With `max_links = 5` and eight distinct candidates that are all
absent from the store and verify as images, the crawl loop persists exactly
five records and makes exactly five download attempts; candidates beyond the
cap are untouched. -/
theorem crawl_max_links_caps_work (env : CrawlEnv)
    (query sourceName resourceDir : String) (urls : List String)
    (db0 : List ImageRecord)
    (hnd : urls.Nodup) (hlen : urls.length = 8)
    (hgood : ∀ u ∈ urls, env.lookupRaises u = false ∧
      (∃ ct, env.contentType u = some ct ∧ isImageContentType ct = true))
    (hfresh : ∀ u ∈ urls, ∀ r ∈ db0, r.url ≠ u) :
    (crawlCandidates env query sourceName resourceDir 5 urls
      (initialCrawlState db0)).saved = 5 ∧
    (crawlCandidates env query sourceName resourceDir 5 urls
      (initialCrawlState db0)).downloadAttempts = 5 ∧
    (crawlCandidates env query sourceName resourceDir 5 urls
      (initialCrawlState db0)).db.length = db0.length + 5 := by
  have htake5 : (urls.take 5).length = 5 := by
    rw [List.length_take, hlen]
    decide
  have hnd5 : (urls.take 5).Nodup := hnd.sublist (List.take_sublist 5 urls)
  have hfold := crawl_fold_all_fresh_images env query sourceName resourceDir
    (urls.take 5) (initialCrawlState db0) hnd5
    (fun u hu => hgood u (List.take_subset 5 urls hu))
    (fun u hu => hfresh u (List.take_subset 5 urls hu))
  rw [crawlCandidates] at *
  refine ⟨?_, ?_, ?_⟩
  · rw [hfold.1, htake5]
    simp [initialCrawlState]
  · rw [hfold.2.1, htake5]
    simp [initialCrawlState]
  · have hlen2 := congrArg List.length hfold.2.2
    simp only [List.length_map, List.length_append, htake5] at hlen2
    simpa [initialCrawlState] using hlen2

/-- C8 witness: the capping theorem at a concrete eight-URL candidate list
over an empty store with a benign environment. -/
theorem crawl_max_links_caps_work_witness :
    (crawlCandidates fixtureEnv fixtureQueryCar fixtureSourceName fixtureResourceDir 5
      fixtureUrls8 (initialCrawlState [])).saved = 5 ∧
    (crawlCandidates fixtureEnv fixtureQueryCar fixtureSourceName fixtureResourceDir 5
      fixtureUrls8 (initialCrawlState [])).downloadAttempts = 5 ∧
    (crawlCandidates fixtureEnv fixtureQueryCar fixtureSourceName fixtureResourceDir 5
      fixtureUrls8 (initialCrawlState [])).db.length =
        ([] : List ImageRecord).length + 5 :=
  crawl_max_links_caps_work fixtureEnv fixtureQueryCar fixtureSourceName
    fixtureResourceDir fixtureUrls8 [] (by decide) (by decide)
    (fun _ _ => ⟨rfl, imageJpegCt, rfl, by decide⟩)
    (fun _ _ r hr => absurd hr (List.not_mem_nil r))

/-- C9.  When the duplicate-store lookup raises, `_check_image_exists` returns
`False` instead of propagating the error, so the candidate is treated as
unseen: if it then verifies as an image, the pipeline proceeds to attempt the
insert (exactly one `create_image_resource` call is made). -/
theorem lookup_error_candidate_treated_unseen (env : CrawlEnv)
    (query sourceName resourceDir : String) (st : CrawlState) (u ct : String)
    (hraise : env.lookupRaises u = true)
    (hct : env.contentType u = some ct)
    (himg : isImageContentType ct = true) :
    checkImageExists (env.lookupRaises u) st.db u = false ∧
    (crawlProcessOne env query sourceName resourceDir st u).createCalls =
      st.createCalls + 1 := by
  have hex : checkImageExists (env.lookupRaises u) st.db u = false := by
    rw [hraise]
    rfl
  refine ⟨hex, ?_⟩
  simp only [crawlProcessOne, hex, Bool.false_eq_true, if_false, hct, himg,
    Bool.not_true]
  split
  · simp
  · split <;> simp

/-- C9 witness: the theorem at a concrete URL with an always-raising lookup. -/
theorem lookup_error_candidate_treated_unseen_witness :
    checkImageExists (fixtureRaisingEnv.lookupRaises fixtureUrlA)
      (initialCrawlState []).db fixtureUrlA = false ∧
    (crawlProcessOne fixtureRaisingEnv fixtureQueryCar fixtureSourceName
      fixtureResourceDir (initialCrawlState []) fixtureUrlA).createCalls =
      (initialCrawlState []).createCalls + 1 :=
  lookup_error_candidate_treated_unseen fixtureRaisingEnv fixtureQueryCar
    fixtureSourceName fixtureResourceDir (initialCrawlState []) fixtureUrlA
    imageJpegCt rfl rfl (by decide)

end CarCrawler
